import Mathlib

/-!
Verification of the moonfrog/go-metrics metrics registry, tag codec and
telemetry exporter (optron).  Go strings are modelled as `List Char` in the
tag codec (where substring splitting matters) and as Lean `String` elsewhere;
`int64` is modelled as `Int` with explicit wrapping modulo `2 ^ 64`; Go's
`float64` snapshot values are modelled as rationals; a Go `map` is modelled
as an association list where the *last* binding of a key wins (matching
repeated `m[k] = v` assignment) or, for the registry, as an association list
whose keys are unique.
-/

namespace GoMetrics

/-! ## Go string primitives (`strings.Split`, `strings.Contains`) -/

/-- Go strings in the tag codec, as lists of characters. -/
abbrev GoStr := List Char

/-- `p` is a prefix of `s` (Go `strings.HasPrefix`, and the step used by
`strings.Index`/`strings.Contains`/`strings.Split`). -/
def strHasPref : GoStr → GoStr → Bool
  | [], _ => true
  | _ :: _, [] => false
  | p :: ps, c :: cs => p == c && strHasPref ps cs

/-- Go `strings.Contains s sub`: `sub` occurs as a substring of `s`. -/
def strContains : GoStr → GoStr → Bool
  | [], sub => sub.isEmpty
  | s@(_ :: t), sub => strHasPref sub s || strContains t sub

/-- Worker for Go `strings.Split s (c0 :: sep)` (non-empty separator):
scan left to right, cutting at each non-overlapping occurrence of the
separator. -/
def splitAux (c0 : Char) (sep : GoStr) : GoStr → List GoStr
  | [] => [[]]
  | c :: rest =>
    if strHasPref (c0 :: sep) (c :: rest) then
      [] :: splitAux c0 sep (rest.drop sep.length)
    else
      match splitAux c0 sep rest with
      | [] => [[c]]
      | f :: fs => (c :: f) :: fs
termination_by s => s.length
decreasing_by
  all_goals simp [List.length_drop]
  omega

/-- Go `strings.Split`.  An empty separator splits into the individual
characters (so the empty string yields no fields), matching Go. -/
def splitGo (s sep : GoStr) : List GoStr :=
  match sep with
  | [] => s.map (fun c => [c])
  | c0 :: sep' => splitAux c0 sep' s

/-! ## Tag codec (src/tag.go) -/

/-- `TAG_DELIMITER = "|"` (src/tag.go). -/
def TAG_DELIMITER : GoStr := ['|']

/-- `TAG_METRIC_DELIMITER = "TAG"` (src/tag.go). -/
def TAG_METRIC_DELIMITER : GoStr := ['T', 'A', 'G']

/-- The five ordered tag dimensions (src/tag.go `TagBoard`). -/
structure TagBoard where
  Ns : GoStr
  Grp : GoStr
  Tgt : GoStr
  Act : GoStr
  Sub : GoStr
deriving DecidableEq

/-- `TagBoard.String()` (src/tag.go): start from `Ns` and append
`"|" + tag` for each *non-empty* remaining field, skipping empty ones. -/
def TagBoard.render (tb : TagBoard) : GoStr :=
  List.foldl (fun tagStr tag => if tag = [] then tagStr else tagStr ++ TAG_DELIMITER ++ tag)
    tb.Ns [tb.Grp, tb.Tgt, tb.Act, tb.Sub]

/-- The key assigned to split-field index `i` by `tagMap`'s switch
(src/tag.go lines 59-72); indices past 4 are dropped. -/
def tagKey : Nat → Option String
  | 0 => some "ns"
  | 1 => some "grp"
  | 2 => some "tgt"
  | 3 => some "act"
  | 4 => some "sub"
  | _ => none

/-- The `for i, tag := range tags` loop of `tagMap` (src/tag.go). -/
def tagMapAux : Nat → List GoStr → List (String × GoStr)
  | _, [] => []
  | i, t :: rest =>
    match tagKey i with
    | some k => (k, t) :: tagMapAux (i + 1) rest
    | none => tagMapAux (i + 1) rest

/-- `tagMap` (src/tag.go): split the tag string on `"|"` and bind the
fields positionally to the keys `ns, grp, tgt, act, sub`. -/
def tagMap (tbString : GoStr) : List (String × GoStr) :=
  tagMapAux 0 (splitGo tbString TAG_DELIMITER)

/-- `TaggedMetricName` (src/tag.go): `tb.String() + "TAG" + name`. -/
def TaggedMetricName (name : GoStr) (tb : TagBoard) : GoStr :=
  tb.render ++ TAG_METRIC_DELIMITER ++ name

/-- `IsTagged` (src/tag.go): the marker `"TAG"` occurs in the name. -/
def IsTagged (name : GoStr) : Bool :=
  strContains name TAG_METRIC_DELIMITER

/-- `ParseTaggedMetric` (src/tag.go): split on `"TAG"` and return
`(fields[1], tagMap fields[0])`.  The Go code indexes `fields[1]`
unconditionally; when the split yields fewer than two fields that access is
out of bounds (a runtime panic), modelled here as `none`. -/
def ParseTaggedMetric (name : GoStr) : Option (GoStr × List (String × GoStr)) :=
  match splitGo name TAG_METRIC_DELIMITER with
  | f0 :: f1 :: _ => some (f1, tagMap f0)
  | _ => none

/-- The mapping the round-trip claim expects `ParseTaggedMetric` to return:
each of the five keys bound to the corresponding `TagBoard` field. -/
def fullTagMap (tb : TagBoard) : List (String × GoStr) :=
  [("ns", tb.Ns), ("grp", tb.Grp), ("tgt", tb.Tgt), ("act", tb.Act), ("sub", tb.Sub)]

/-! ## int64 arithmetic -/

/-- Wrap an integer to the `int64` range (two's-complement, as Go's
`sync/atomic` add does on overflow). -/
def wrap64 (x : Int) : Int :=
  (x + 2 ^ 63) % 2 ^ 64 - 2 ^ 63

/-! ## InstantCounter (src/instant.go) -/

/-- `InstantCounter`: a single `int64` value. -/
structure InstantCounter where
  count : Int
deriving DecidableEq

/-- `NewInstantCounter` (src/instant.go): `&InstantCounter{0}`. -/
def NewInstantCounter : InstantCounter := ⟨0⟩

/-- `Clear` (src/instant.go): store zero. -/
def InstantCounter.Clear (_ : InstantCounter) : InstantCounter := ⟨0⟩

/-- `Count` (src/instant.go): an atomic load of the current value; the
counter itself is not modified. -/
def InstantCounter.Count (c : InstantCounter) : Int := c.count

/-- `Inc` (src/instant.go): atomic add. -/
def InstantCounter.Inc (c : InstantCounter) (i : Int) : InstantCounter :=
  ⟨wrap64 (c.count + i)⟩

/-- `Dec` (src/instant.go): atomic add of `-i`. -/
def InstantCounter.Dec (c : InstantCounter) (i : Int) : InstantCounter :=
  ⟨wrap64 (c.count - i)⟩

/-- `Update` (src/instant.go): same as `Inc`. -/
def InstantCounter.Update (c : InstantCounter) (i : Int) : InstantCounter :=
  c.Inc i

/-- One operation of the `Instant` interface (src/instant.go). -/
inductive InstantOp where
  | clear
  | inc (i : Int)
  | dec (i : Int)
  | update (i : Int)
  | count
deriving DecidableEq

/-- Run a sequence of `Instant` operations, collecting the value returned
by each `Count` call in order. -/
def runOps : InstantCounter → List InstantOp → InstantCounter × List Int
  | c, [] => (c, [])
  | c, InstantOp.clear :: rest => runOps c.Clear rest
  | c, InstantOp.inc i :: rest => runOps (c.Inc i) rest
  | c, InstantOp.dec i :: rest => runOps (c.Dec i) rest
  | c, InstantOp.update i :: rest => runOps (c.Update i) rest
  | c, InstantOp.count :: rest =>
    match runOps c rest with
    | (cf, outs) => (cf, c.Count :: outs)

/-- Apply a list of `Update` deltas in order. -/
def applyUpdates (c : InstantCounter) (ds : List Int) : InstantCounter :=
  ds.foldl (fun a d => a.Update d) c

/-! ## Registry (src/registry.go) -/

/-- The closed set of metric kinds held by a registry (src/registry.go
`register` type switch).  The statistical internals of histogram, meter,
timer and healthcheck are out of scope (external Metric Type Contract), so
those carry an abstract instance identifier; scalar kinds carry their value.
`nonMetric` stands for any `interface{}` value outside the closed kind set. -/
inductive Metric where
  | counter (v : Int)
  | gauge (v : Int)
  | gaugeFloat64 (v : ℚ)
  | healthcheck (id : Nat)
  | histogram (id : Nat)
  | meter (id : Nat)
  | timer (id : Nat)
  | instant (v : Int)
  | nonMetric (id : Nat)
deriving DecidableEq

/-- Is this instance of the `GaugeFloat64` kind? -/
def Metric.isGaugeFloat64 : Metric → Bool
  | .gaugeFloat64 _ => true
  | _ => false

/-- `DuplicateMetric` (src/registry.go): the error returned by `Register`
when the name is already registered; it carries the name. -/
inductive RegError where
  | duplicateMetric (name : String)
deriving DecidableEq

/-- The standard registry's `map[string]Metric`, as an association list with
unique keys (Go map keys are unique). -/
abbrev RegState := List (String × Metric)

/-- Insert a (fresh) name into the registry map. -/
def insertReg (st : RegState) (name : String) (m : Metric) : RegState :=
  (name, m) :: st

/-- Modelled from the spec: `NewGauge` (gauge.go is not under src/) — the
Metric Type Contract's constructor for a fresh integer `Gauge` instance. -/
def NewGauge : Metric := Metric.gauge 0

/-- `StandardRegistry.register` (src/registry.go lines 156-169): duplicate
names fail without mutating; recognised metric kinds are stored as given,
except a `GaugeFloat64`, for which a freshly constructed integer gauge is
stored instead (the `// TODO: fix` branch); any other value is silently
ignored.  Returns `(error, new state)`. -/
def StandardRegistry.register (st : RegState) (name : String) (i : Metric) :
    Option RegError × RegState :=
  if (st.lookup name).isSome then
    (some (RegError.duplicateMetric name), st)
  else
    match i with
    | .gaugeFloat64 _ => (none, insertReg st name NewGauge)
    | .nonMetric _ => (none, st)
    | m => (none, insertReg st name m)

/-- `StandardRegistry.Register` (src/registry.go): take the lock and call
`register`. -/
def StandardRegistry.Register (st : RegState) (name : String) (i : Metric) :
    Option RegError × RegState :=
  StandardRegistry.register st name i

/-- `StandardRegistry.Get` (src/registry.go): map lookup, `nil` (`none`)
when absent. -/
def StandardRegistry.Get (st : RegState) (name : String) : Option Metric :=
  st.lookup name

/-- The argument of `GetOrRegister`: either a metric instance or a
zero-argument constructor (the reflection `Func` branch). -/
inductive MetricOrCtor where
  | metric (m : Metric)
  | ctor (f : Unit → Metric)

/-- `StandardRegistry.GetOrRegister` (src/registry.go lines 95-106): under
the lock, return the existing instance if present; otherwise call the
constructor if one was supplied, register the result, and return it. -/
def StandardRegistry.GetOrRegister (st : RegState) (name : String) (i : MetricOrCtor) :
    Metric × RegState :=
  match st.lookup name with
  | some m => (m, st)
  | none =>
    let v := match i with
      | .metric m => m
      | .ctor f => f ()
    (v, (StandardRegistry.register st name v).2)

/-- Modelled from the spec: the Metric Type Contract's `Update(value)`
(counter.go / gauge.go are not under src/) — counters and instant counters
add the value (spec §8: three `Update("requests", 5)` calls yield 15),
gauges set it; the remaining kinds keep their abstract identity. -/
def updateMetric : Metric → Int → Metric
  | .counter v, d => .counter (wrap64 (v + d))
  | .instant v, d => .instant (wrap64 (v + d))
  | .gauge _, d => .gauge (wrap64 d)
  | m, _ => m

/-- Replace the stored instance at `name` (in Go, `m.Update(val)` mutates
the object the map points to). -/
def replaceReg (st : RegState) (name : String) (m : Metric) : RegState :=
  st.map (fun p => if p.1 == name then (name, m) else p)

/-- `StandardRegistry.Update` (src/registry.go lines 109-118): if the name
is absent, lazily create and register a counter there (`NewRegisteredCounter`,
counter.go not under src/, modelled from the spec §4.1 `Update` clause),
then apply `m.Update(val)`. -/
def StandardRegistry.Update (st : RegState) (name : String) (val : Int) : RegState :=
  match st.lookup name with
  | some m => replaceReg st name (updateMetric m val)
  | none =>
    let st' := (StandardRegistry.register st name (Metric.counter 0)).2
    replaceReg st' name (updateMetric (Metric.counter 0) val)

/-- `StandardRegistry.Unregister` (src/registry.go): delete the name. -/
def StandardRegistry.Unregister (st : RegState) (name : String) : RegState :=
  st.filter (fun p => !(p.1 == name))

/-- The key set of `registered()` sorted ascending by `sort.Strings`
(src/registry.go `Each`). -/
def sortedKeys (st : RegState) : List String :=
  List.insertionSort (· ≤ ·) (st.map Prod.fst)

/-- `StandardRegistry.Each` (src/registry.go lines 71-82) as the list of
`(name, metric)` pairs passed to the visitor, in visiting order: snapshot
the key set, sort it, and look each name up again. -/
def StandardRegistry.Each (st : RegState) : List (String × Metric) :=
  (sortedKeys st).filterMap (fun k => (st.lookup k).map (fun m => (k, m)))

/-! ### Prefixed registry (src/registry.go lines 216-303)

The decorator is modelled over a standard registry as the underlying
registry; each operation is the name transformation the source applies
before delegating. -/

/-- `PrefixedRegistry.Get`: delegates on `r.prefix + name`. -/
def PrefixedRegistry.Get (pfx : String) (st : RegState) (name : String) : Option Metric :=
  StandardRegistry.Get st (pfx ++ name)

/-- `PrefixedRegistry.Register`: delegates on `r.prefix + name`. -/
def PrefixedRegistry.Register (pfx : String) (st : RegState) (name : String) (i : Metric) :
    Option RegError × RegState :=
  StandardRegistry.Register st (pfx ++ name) i

/-- `PrefixedRegistry.GetOrRegister`: delegates on `r.prefix + name`. -/
def PrefixedRegistry.GetOrRegister (pfx : String) (st : RegState) (name : String)
    (i : MetricOrCtor) : Metric × RegState :=
  StandardRegistry.GetOrRegister st (pfx ++ name) i

/-- `PrefixedRegistry.Unregister`: delegates on `r.prefix + name`. -/
def PrefixedRegistry.Unregister (pfx : String) (st : RegState) (name : String) : RegState :=
  StandardRegistry.Unregister st (pfx ++ name)

/-- `PrefixedRegistry.Update` (src/registry.go lines 251-253): delegates on
the *unmodified* `name` — the source reads `r.underlying.Update(name, val)`
with no `realName := r.prefix + name` line, unlike the other operations. -/
def PrefixedRegistry.Update (pfx : String) (st : RegState) (name : String) (val : Int) :
    RegState :=
  StandardRegistry.Update st name val

/-! ## Telemetry exporter (src/optron/optron.go) -/

/-- A scalar export value (JSON string / integer / float). -/
inductive ExportValue where
  | str (s : String)
  | int (v : Int)
  | rat (q : ℚ)
deriving DecidableEq

/-- One export record: a Go `map[string]interface{}` built by repeated
assignment, as an association list where the last binding wins. -/
abbrev Record := List (String × ExportValue)

/-- Read a key from a `Record` under last-binding-wins map semantics. -/
def mapGet (rec : Record) (k : String) : Option ExportValue :=
  rec.foldl (fun acc p => if p.1 = k then some p.2 else acc) none

/-- Modelled from the spec: a Timer snapshot (timer.go is not under src/) —
the Metric Type Contract exposes a mean and quantile lookup by requested
fractions; `Percentiles` maps each requested fraction to its quantile.
float64 values are modelled as rationals. -/
structure TimerSnapshot where
  mean : ℚ
  quantile : ℚ → ℚ

/-- `Timer.Percentiles` on a list of requested fractions. -/
def TimerSnapshot.Percentiles (t : TimerSnapshot) (ps : List ℚ) : List ℚ :=
  ps.map t.quantile

/-- `float64(time.Second)`: one second in nanoseconds. -/
def timeSecond : ℚ := 1000000000

/-- The `case metrics.Timer` branch of `Optron.send`
(src/optron/optron.go lines 265-273): request the percentiles
`[0.5, 0.80, 0.90, 0.95, 0.99]` and add the five fields `ps[0]`..`ps[4]`,
each divided by `scale`; note `_avg` is assigned `ps[0]` (the 0.5
quantile).  The indices are matched positionally; the default branch is
unreachable because `Percentiles` returns one value per requested
fraction. -/
def timerExportFields (name : String) (t : TimerSnapshot) : Record :=
  match t.Percentiles [1/2, 8/10, 9/10, 95/100, 99/100] with
  | [p50, p80, p90, p95, p99] =>
    [(name ++ "_avg", ExportValue.rat (p50 / timeSecond)),
     (name ++ "_80", ExportValue.rat (p80 / timeSecond)),
     (name ++ "_90", ExportValue.rat (p90 / timeSecond)),
     (name ++ "_95", ExportValue.rat (p95 / timeSecond)),
     (name ++ "_99", ExportValue.rat (p99 / timeSecond))]
  | _ => []

/-- The export record `Optron.send` builds for an (untagged) timer metric:
the fixed fields `hostName`, `id`, `game` followed by the timer fields. -/
def buildTimerRecord (host idn game name : String) (t : TimerSnapshot) : Record :=
  [("hostName", ExportValue.str host), ("id", ExportValue.str idn),
   ("game", ExportValue.str game)] ++ timerExportFields name t

/-- `OptronObjBuilder` (src/optron/optron.go lines 143-148).  `init`
validates `batchSize ≥ 1` whenever `hasBulkSupport` is set. -/
structure OptronObjBuilder where
  hasBulkSupport : Bool
  batchSize : Nat
  standaloneObj : Record
  objList : List Record

/-- `OptronObjBuilder.append` (src/optron/optron.go lines 150-158): with
bulk support the record is appended to the ordered list; otherwise its
fields are merged into the single standalone object. -/
def OptronObjBuilder.append (ob : OptronObjBuilder) (data : Record) : OptronObjBuilder :=
  if ob.hasBulkSupport then
    { ob with objList := ob.objList ++ [data] }
  else
    { ob with standaloneObj := ob.standaloneObj ++ data }

/-- The chunking loop of `OptronObjBuilder.flush`
(src/optron/optron.go lines 175-177):
`for i := 0; i < len(l); i += b { data = append(data, l[i:min(i+b, len(l))]) }`.
For `b ≥ 1` (guaranteed by `init`) this takes `b` elements per step. -/
def chunkGo (b : Nat) : List Record → List (List Record)
  | [] => []
  | a :: l => ((a :: l).take b) :: chunkGo b (l.drop (b - 1))
termination_by l => l.length
decreasing_by
  simp [List.length_drop]
  omega

/-- One flushed payload: a batch (bulk mode) or the standalone object. -/
inductive Payload where
  | batch (rs : List Record)
  | single (obj : Record)
deriving DecidableEq

/-- `OptronObjBuilder.flush` (src/optron/optron.go lines 167-182): with bulk
support, chunk the pending list into `batchSize`-sized payloads; otherwise
emit the single standalone object.  The deferred block always clears both
buffers. -/
def OptronObjBuilder.flush (ob : OptronObjBuilder) : List Payload × OptronObjBuilder :=
  (if ob.hasBulkSupport then
    (chunkGo ob.batchSize ob.objList).map Payload.batch
   else
    [Payload.single ob.standaloneObj],
   { ob with standaloneObj := [], objList := [] })

/-! ## Lemmas about Go string splitting -/

theorem splitAux_ne_nil (c0 : Char) (sep : GoStr) : ∀ s : GoStr, splitAux c0 sep s ≠ [] := by
  intro s
  match s with
  | [] => simp [splitAux]
  | c :: rest =>
    rw [splitAux]
    split
    · simp
    · split <;> simp

theorem splitAux_eq_single (c0 : Char) (sep : GoStr) :
    ∀ s : GoStr, strContains s (c0 :: sep) = false → splitAux c0 sep s = [s] := by
  intro s
  induction s with
  | nil => intro h; simp [splitAux]
  | cons c rest ih =>
    intro h
    simp only [strContains, Bool.or_eq_false_iff] at h
    rw [splitAux, if_neg (by simp [h.1]), ih h.2]

theorem two_le_splitAux_length (c0 : Char) (sep : GoStr) :
    ∀ s : GoStr, strContains s (c0 :: sep) = true → 2 ≤ (splitAux c0 sep s).length := by
  intro s
  induction s with
  | nil => intro h; simp [strContains, List.isEmpty] at h
  | cons c rest ih =>
    intro h
    by_cases hp : strHasPref (c0 :: sep) (c :: rest) = true
    · rw [splitAux, if_pos hp]
      have hne := splitAux_ne_nil c0 sep (rest.drop sep.length)
      cases hs : splitAux c0 sep (rest.drop sep.length) with
      | nil => exact absurd hs hne
      | cons f fs => simp
    · simp only [strContains, Bool.or_eq_true] at h
      have hrest : strContains rest (c0 :: sep) = true := by
        rcases h with h | h
        · exact absurd h hp
        · exact h
      rw [splitAux, if_neg hp]
      have := ih hrest
      cases hs : splitAux c0 sep rest with
      | nil => exact absurd hs (splitAux_ne_nil c0 sep rest)
      | cons f fs =>
        rw [hs] at this
        simpa using this

theorem splitAux_single_append (c0 : Char) (b : GoStr) :
    ∀ a : GoStr, strContains a [c0] = false →
      splitAux c0 [] (a ++ c0 :: b) = a :: splitAux c0 [] b := by
  intro a
  induction a with
  | nil =>
    intro _
    rw [List.nil_append, splitAux, if_pos (by simp [strHasPref])]
    simp
  | cons c a' ih =>
    intro h
    simp only [strContains, Bool.or_eq_false_iff] at h
    have hp : strHasPref [c0] (c :: (a' ++ c0 :: b)) = false := by
      have := h.1
      simp only [strHasPref, Bool.and_true] at this ⊢
      exact this
    rw [List.cons_append, splitAux, if_neg (by simp [hp]), ih h.2]

theorem splitAux_tag_append (b : GoStr) :
    ∀ a : GoStr, strContains a ['T', 'A', 'G'] = false →
      splitAux 'T' ['A', 'G'] (a ++ 'T' :: 'A' :: 'G' :: b) = a :: splitAux 'T' ['A', 'G'] b := by
  intro a
  induction a with
  | nil =>
    intro _
    rw [List.nil_append, splitAux, if_pos (by simp [strHasPref])]
    simp
  | cons c a' ih =>
    intro h
    simp only [strContains, Bool.or_eq_false_iff] at h
    have hp : strHasPref ['T', 'A', 'G'] (c :: (a' ++ 'T' :: 'A' :: 'G' :: b)) = false := by
      match a' with
      | [] =>
        have hAT : ('A' == 'T') = false := rfl
        simp [strHasPref, hAT]
      | [d] =>
        have hGT : ('G' == 'T') = false := rfl
        simp [strHasPref, hGT]
      | d :: e :: a'' =>
        have := h.1
        simp only [strHasPref, Bool.and_true] at this ⊢
        simpa using this
    rw [List.cons_append, splitAux, if_neg (by simp [hp]), ih h.2]

theorem strContains_tag_pipe_append (b : GoStr) (hb : strContains b ['T', 'A', 'G'] = false) :
    ∀ a : GoStr, strContains a ['T', 'A', 'G'] = false →
      strContains (a ++ '|' :: b) ['T', 'A', 'G'] = false := by
  intro a
  induction a with
  | nil =>
    intro _
    have hTp : ('T' == '|') = false := rfl
    simp [strContains, strHasPref, hTp, hb]
  | cons c a' ih =>
    intro h
    simp only [strContains, Bool.or_eq_false_iff] at h
    rw [List.cons_append, strContains, Bool.or_eq_false_iff]
    refine ⟨?_, ih h.2⟩
    match a' with
    | [] =>
      have hAp : ('A' == '|') = false := rfl
      simp [strHasPref, hAp]
    | [d] =>
      have hGp : ('G' == '|') = false := rfl
      simp [strHasPref, hGp]
    | d :: e :: a'' =>
      have := h.1
      simp only [strHasPref, Bool.and_true] at this ⊢
      simpa using this

theorem render_eq_of_nonempty (tb : TagBoard) (hg : tb.Grp ≠ []) (ht : tb.Tgt ≠ [])
    (ha : tb.Act ≠ []) (hs : tb.Sub ≠ []) :
    tb.render =
      tb.Ns ++ '|' :: (tb.Grp ++ '|' :: (tb.Tgt ++ '|' :: (tb.Act ++ '|' :: tb.Sub))) := by
  simp [TagBoard.render, TAG_DELIMITER, hg, ht, ha, hs, List.append_assoc]

theorem render_not_contains_tag (tb : TagBoard)
    (hNs : strContains tb.Ns ['T', 'A', 'G'] = false)
    (hGrp : strContains tb.Grp ['T', 'A', 'G'] = false)
    (hTgt : strContains tb.Tgt ['T', 'A', 'G'] = false)
    (hAct : strContains tb.Act ['T', 'A', 'G'] = false)
    (hSub : strContains tb.Sub ['T', 'A', 'G'] = false)
    (hg : tb.Grp ≠ []) (ht : tb.Tgt ≠ []) (ha : tb.Act ≠ []) (hs : tb.Sub ≠ []) :
    strContains tb.render ['T', 'A', 'G'] = false := by
  rw [render_eq_of_nonempty tb hg ht ha hs]
  exact strContains_tag_pipe_append _
    (strContains_tag_pipe_append _
      (strContains_tag_pipe_append _
        (strContains_tag_pipe_append _ hSub _ hAct) _ hTgt) _ hGrp) _ hNs

theorem splitPipe_render (tb : TagBoard)
    (hNs : strContains tb.Ns ['|'] = false)
    (hGrp : strContains tb.Grp ['|'] = false)
    (hTgt : strContains tb.Tgt ['|'] = false)
    (hAct : strContains tb.Act ['|'] = false)
    (hSub : strContains tb.Sub ['|'] = false)
    (hg : tb.Grp ≠ []) (ht : tb.Tgt ≠ []) (ha : tb.Act ≠ []) (hs : tb.Sub ≠ []) :
    splitAux '|' [] tb.render = [tb.Ns, tb.Grp, tb.Tgt, tb.Act, tb.Sub] := by
  rw [render_eq_of_nonempty tb hg ht ha hs]
  rw [splitAux_single_append '|' _ _ hNs, splitAux_single_append '|' _ _ hGrp,
    splitAux_single_append '|' _ _ hTgt, splitAux_single_append '|' _ _ hAct,
    splitAux_eq_single '|' [] _ hSub]

/-- C1 (amended): for a TagBoard whose five fields contain neither the tag
delimiter `"|"` nor the marker `"TAG"` and whose `Grp`, `Tgt`, `Act`, `Sub`
fields are non-empty, and a base name not containing `"TAG"`,
`ParseTaggedMetric (TaggedMetricName name tb)` returns exactly the base
name together with the mapping binding `ns, grp, tgt, act, sub` to the
corresponding fields. -/
theorem tag_roundtrip_nonempty (tb : TagBoard) (name : GoStr)
    (hNsT : strContains tb.Ns TAG_METRIC_DELIMITER = false)
    (hGrpT : strContains tb.Grp TAG_METRIC_DELIMITER = false)
    (hTgtT : strContains tb.Tgt TAG_METRIC_DELIMITER = false)
    (hActT : strContains tb.Act TAG_METRIC_DELIMITER = false)
    (hSubT : strContains tb.Sub TAG_METRIC_DELIMITER = false)
    (hNsP : strContains tb.Ns TAG_DELIMITER = false)
    (hGrpP : strContains tb.Grp TAG_DELIMITER = false)
    (hTgtP : strContains tb.Tgt TAG_DELIMITER = false)
    (hActP : strContains tb.Act TAG_DELIMITER = false)
    (hSubP : strContains tb.Sub TAG_DELIMITER = false)
    (hg : tb.Grp ≠ []) (ht : tb.Tgt ≠ []) (ha : tb.Act ≠ []) (hs : tb.Sub ≠ [])
    (hName : strContains name TAG_METRIC_DELIMITER = false) :
    ParseTaggedMetric (TaggedMetricName name tb) = some (name, fullTagMap tb) := by
  simp only [TAG_METRIC_DELIMITER] at hNsT hGrpT hTgtT hActT hSubT hName
  simp only [TAG_DELIMITER] at hNsP hGrpP hTgtP hActP hSubP
  have hrender := render_not_contains_tag tb hNsT hGrpT hTgtT hActT hSubT hg ht ha hs
  unfold ParseTaggedMetric TaggedMetricName
  simp only [splitGo, TAG_METRIC_DELIMITER]
  rw [show tb.render ++ ['T', 'A', 'G'] ++ name = tb.render ++ 'T' :: 'A' :: 'G' :: name by
    simp]
  rw [splitAux_tag_append name tb.render hrender, splitAux_eq_single 'T' ['A', 'G'] name hName]
  simp only [tagMap, splitGo, TAG_DELIMITER]
  rw [splitPipe_render tb hNsP hGrpP hTgtP hActP hSubP hg ht ha hs]
  simp [tagMapAux, tagKey, fullTagMap]

/-- Witness for C1 (amended) at a concrete TagBoard and name. -/
theorem tag_roundtrip_nonempty_witness :
    ParseTaggedMetric (TaggedMetricName ['m'] ⟨['a'], ['b'], ['c'], ['d'], ['e']⟩) =
      some (['m'], fullTagMap ⟨['a'], ['b'], ['c'], ['d'], ['e']⟩) :=
  tag_roundtrip_nonempty ⟨['a'], ['b'], ['c'], ['d'], ['e']⟩ ['m']
    (by decide) (by decide) (by decide) (by decide) (by decide)
    (by decide) (by decide) (by decide) (by decide) (by decide)
    (by decide) (by decide) (by decide) (by decide) (by decide)

/-- C1 counterexample: the TagBoard `{Ns := "a", Grp := "", Tgt := "c"}`
satisfies the claim's hypotheses (no field contains `"|"` or `"TAG"`, the
base name `"m"` does not contain `"TAG"`), yet decoding the tagged name
does not recover the five-key mapping of the fields: the empty `Grp` is
skipped by the encoder, so `"c"` decodes under the key `grp`. -/
theorem tag_roundtrip_counterexample :
    (strContains ['a'] TAG_METRIC_DELIMITER = false
      ∧ strContains ([] : GoStr) TAG_METRIC_DELIMITER = false
      ∧ strContains ['c'] TAG_METRIC_DELIMITER = false
      ∧ strContains ['a'] TAG_DELIMITER = false
      ∧ strContains ([] : GoStr) TAG_DELIMITER = false
      ∧ strContains ['c'] TAG_DELIMITER = false
      ∧ strContains ['m'] TAG_METRIC_DELIMITER = false)
    ∧ ParseTaggedMetric (TaggedMetricName ['m'] ⟨['a'], [], ['c'], [], []⟩) ≠
        some (['m'], fullTagMap ⟨['a'], [], ['c'], [], []⟩) := by
  constructor
  · decide
  · have hname : TaggedMetricName ['m'] ⟨['a'], [], ['c'], [], []⟩
        = ['a', '|', 'c'] ++ 'T' :: 'A' :: 'G' :: ['m'] := rfl
    have hsplit : splitAux 'T' ['A', 'G'] (['a', '|', 'c'] ++ 'T' :: 'A' :: 'G' :: ['m'])
        = [['a', '|', 'c'], ['m']] := by
      rw [splitAux_tag_append ['m'] ['a', '|', 'c'] (by decide),
        splitAux_eq_single 'T' ['A', 'G'] ['m'] (by decide)]
    have hpipe : splitAux '|' [] ['a', '|', 'c'] = [['a'], ['c']] := by
      rw [show (['a', '|', 'c'] : GoStr) = ['a'] ++ '|' :: ['c'] from rfl]
      rw [splitAux_single_append '|' ['c'] ['a'] (by decide),
        splitAux_eq_single '|' [] ['c'] (by decide)]
    have hval : ParseTaggedMetric (TaggedMetricName ['m'] ⟨['a'], [], ['c'], [], []⟩)
        = some (['m'], [("ns", ['a']), ("grp", ['c'])]) := by
      rw [hname]
      unfold ParseTaggedMetric
      rw [show splitGo (['a', '|', 'c'] ++ 'T' :: 'A' :: 'G' :: ['m']) TAG_METRIC_DELIMITER
          = splitAux 'T' ['A', 'G'] (['a', '|', 'c'] ++ 'T' :: 'A' :: 'G' :: ['m']) from rfl,
        hsplit]
      simp only [tagMap]
      rw [show splitGo ['a', '|', 'c'] TAG_DELIMITER = splitAux '|' [] ['a', '|', 'c'] from rfl,
        hpipe]
      rfl
    rw [hval]
    decide

/-- C10: `ParseTaggedMetric` succeeds exactly on tagged names: the result is
`some` iff `IsTagged` holds, iff the split on `"TAG"` has at least two
fields; on an untagged name the split has a single field and the Go code's
`fields[1]` access is out of bounds (modelled as `none`), so `IsTagged` is
a precondition of every call. -/
theorem parse_tagged_totality (name : GoStr) :
    (ParseTaggedMetric name).isSome = IsTagged name
    ∧ (ParseTaggedMetric name).isSome =
        decide (2 ≤ (splitGo name TAG_METRIC_DELIMITER).length) := by
  have hsplit : splitGo name TAG_METRIC_DELIMITER = splitAux 'T' ['A', 'G'] name := rfl
  by_cases h : IsTagged name = true
  · have hlen := two_le_splitAux_length 'T' ['A', 'G'] name (by simpa [IsTagged, TAG_METRIC_DELIMITER] using h)
    cases hs : splitAux 'T' ['A', 'G'] name with
    | nil => exact absurd hs (splitAux_ne_nil 'T' ['A', 'G'] name)
    | cons f0 rest =>
      cases rest with
      | nil => rw [hs] at hlen; simp at hlen
      | cons f1 tail =>
        unfold ParseTaggedMetric
        rw [hsplit, hs, h]
        constructor
        · rfl
        · simp
  · have hfalse : IsTagged name = false := by
      cases hval : IsTagged name with
      | false => rfl
      | true => exact absurd hval h
    have hone : splitAux 'T' ['A', 'G'] name = [name] :=
      splitAux_eq_single 'T' ['A', 'G'] name (by simpa [IsTagged, TAG_METRIC_DELIMITER] using hfalse)
    unfold ParseTaggedMetric
    rw [hsplit, hone, hfalse]
    constructor
    · rfl
    · simp

/-! ## InstantCounter lemmas -/

theorem wrap64_zero : wrap64 0 = 0 := by decide

theorem wrap64_add_left (a b : Int) : wrap64 (wrap64 a + b) = wrap64 (a + b) := by
  unfold wrap64
  have h63 : (2 : Int) ^ 63 = 9223372036854775808 := by norm_num
  have h64 : (2 : Int) ^ 64 = 18446744073709551616 := by norm_num
  rw [h63, h64]
  omega

theorem applyUpdates_from (ds : List Int) :
    ∀ a : Int, applyUpdates ⟨wrap64 a⟩ ds = ⟨wrap64 (a + ds.sum)⟩ := by
  induction ds with
  | nil => intro a; simp [applyUpdates]
  | cons d ds ih =>
    intro a
    have hstep : (⟨wrap64 a⟩ : InstantCounter).Update d = ⟨wrap64 (a + d)⟩ := by
      simp [InstantCounter.Update, InstantCounter.Inc, wrap64_add_left]
    calc applyUpdates ⟨wrap64 a⟩ (d :: ds)
        = applyUpdates ⟨wrap64 (a + d)⟩ ds := by
          simp [applyUpdates, List.foldl_cons, hstep]
      _ = ⟨wrap64 (a + d + ds.sum)⟩ := ih (a + d)
      _ = ⟨wrap64 (a + (d :: ds).sum)⟩ := by
          simp [List.sum_cons]
          ring_nf

/-- C3 counterexample: starting from a fresh `InstantCounter`, after
`Update 5` a first `Count` returns 5 and a second `Count` invoked
immediately after (no intervening updates) returns 5 again — not 0, because
`Count` is a plain atomic load and does not reset the counter. -/
theorem instant_count_counterexample :
    (runOps NewInstantCounter
        [InstantOp.update 5, InstantOp.count, InstantOp.count]).2 = [5, 5]
    ∧ (5 : Int) ≠ 0 := by
  decide

/-- C3 (amended): `Count()` returns the value accumulated since the last
`Clear()` (the `int64` sum of the applied update deltas, two's-complement
wrapped) and is read-only: it does not reset the counter, so two
consecutive `Count` calls observe the same value and leave the counter
unchanged.  Reset is the separate `Clear()` operation (the exporter
achieves read-and-clear by calling `Count` then `Clear`). -/
theorem instant_count_clear_semantics (c : InstantCounter) (ds : List Int) :
    (applyUpdates c.Clear ds).Count = wrap64 ds.sum
    ∧ runOps c [InstantOp.count, InstantOp.count] = (c, [c.Count, c.Count])
    ∧ (c.Clear).Count = 0 := by
  refine ⟨?_, rfl, rfl⟩
  have h0 : c.Clear = (⟨wrap64 0⟩ : InstantCounter) := by
    simp [InstantCounter.Clear, wrap64_zero]
  rw [h0, applyUpdates_from ds 0]
  simp [InstantCounter.Count]

/-! ## Registry lemmas -/

/-- C6: registering under an already-registered name returns the
`DuplicateMetric` error carrying that name and leaves the registry's
name-to-metric map unchanged, whatever value is being registered; in
particular the previously stored instance is not replaced. -/
theorem register_duplicate_unchanged (st : RegState) (name : String) (i : Metric)
    (m : Metric) (h : st.lookup name = some m) :
    StandardRegistry.Register st name i = (some (RegError.duplicateMetric name), st) := by
  unfold StandardRegistry.Register StandardRegistry.register
  rw [h]
  rfl

/-- Witness for C6 at a concrete registry state. -/
theorem register_duplicate_unchanged_witness :
    ([("a", Metric.counter 1)] : RegState).lookup "a" = some (Metric.counter 1)
    ∧ StandardRegistry.Register [("a", Metric.counter 1)] "a" (Metric.gauge 7)
        = (some (RegError.duplicateMetric "a"), [("a", Metric.counter 1)]) :=
  ⟨by decide, register_duplicate_unchanged [("a", Metric.counter 1)] "a"
    (Metric.gauge 7) (Metric.counter 1) (by decide)⟩

/-- C9: registering a `GaugeFloat64` under an unregistered name succeeds
(`nil` error) but stores a freshly constructed integer gauge (`NewGauge`)
instead of the supplied value, so a subsequent `Get` returns an instance
that is not the registered one and is not of the `GaugeFloat64` kind. -/
theorem register_gaugefloat_stores_gauge (st : RegState) (name : String) (q : ℚ)
    (h : st.lookup name = none) :
    StandardRegistry.Register st name (Metric.gaugeFloat64 q)
      = (none, insertReg st name NewGauge)
    ∧ StandardRegistry.Get
        (StandardRegistry.Register st name (Metric.gaugeFloat64 q)).2 name = some NewGauge
    ∧ NewGauge ≠ Metric.gaugeFloat64 q
    ∧ NewGauge.isGaugeFloat64 = false := by
  have h1 : StandardRegistry.Register st name (Metric.gaugeFloat64 q)
      = (none, insertReg st name NewGauge) := by
    unfold StandardRegistry.Register StandardRegistry.register
    rw [h]
    rfl
  refine ⟨h1, ?_, by simp [NewGauge], rfl⟩
  rw [h1]
  simp [StandardRegistry.Get, insertReg, List.lookup]

/-- Witness for C9 on the empty registry. -/
theorem register_gaugefloat_stores_gauge_witness :
    (([] : RegState).lookup "g" = none)
    ∧ (StandardRegistry.Register ([] : RegState) "g" (Metric.gaugeFloat64 (1/2))
        = (none, insertReg [] "g" NewGauge)
      ∧ StandardRegistry.Get
          (StandardRegistry.Register ([] : RegState) "g" (Metric.gaugeFloat64 (1/2))).2 "g"
          = some NewGauge
      ∧ NewGauge ≠ Metric.gaugeFloat64 (1/2)
      ∧ NewGauge.isGaugeFloat64 = false) :=
  ⟨rfl, register_gaugefloat_stores_gauge [] "g" (1/2) rfl⟩

theorem replaceReg_nil (name : String) (m : Metric) : replaceReg [] name m = [] := rfl

theorem replaceReg_cons_self (name : String) (m x : Metric) (st : RegState) :
    replaceReg ((name, x) :: st) name m = (name, m) :: replaceReg st name m := by
  show (if ((name, x).1 == name) = true then (name, m) else (name, x)) :: replaceReg st name m
      = (name, m) :: replaceReg st name m
  rw [if_pos (by simp)]

theorem string_append_ne_of_ne_left (pfx n : String) (hp : pfx ≠ "") : pfx ++ n ≠ n := by
  intro he
  apply hp
  have hd : (pfx ++ n).data = n.data := congrArg String.data he
  rw [String.data_append] at hd
  have hlen := congrArg List.length hd
  rw [List.length_append] at hlen
  have : pfx.data = [] := List.eq_nil_of_length_eq_zero (by omega)
  cases pfx
  simp_all

/-- C4 counterexample: `PrefixedRegistry.Update` with prefix `"p."` and an
empty underlying registry, applied to name `"x"`, creates and updates the
counter under the *unprefixed* name `"x"`; nothing appears under `"p.x"`,
contradicting the claim that every name-taking operation (including
`Update`) rewrites the name to `prefix + name` before delegating. -/
theorem prefixed_update_counterexample :
    StandardRegistry.Get (PrefixedRegistry.Update "p." [] "x" 5) ("p." ++ "x") = none
    ∧ StandardRegistry.Get (PrefixedRegistry.Update "p." [] "x" 5) "x"
        = some (Metric.counter 5) := by
  decide

/-- C4 (amended): `Get`, `Register`, `GetOrRegister` and `Unregister`
rewrite the name to `prefix + name` before delegating to the underlying
registry, but `Update` delegates with the unmodified name; observably, a
prefixed `Update` on an empty underlying registry registers the counter
under the bare name while the prefixed name stays absent. -/
theorem prefixed_ops_delegation (pfx n : String) (v : Int) (st : RegState)
    (m : Metric) (i : MetricOrCtor) (hp : pfx ≠ "") :
    PrefixedRegistry.Get pfx st n = StandardRegistry.Get st (pfx ++ n)
    ∧ PrefixedRegistry.Register pfx st n m = StandardRegistry.Register st (pfx ++ n) m
    ∧ PrefixedRegistry.GetOrRegister pfx st n i
        = StandardRegistry.GetOrRegister st (pfx ++ n) i
    ∧ PrefixedRegistry.Unregister pfx st n = StandardRegistry.Unregister st (pfx ++ n)
    ∧ PrefixedRegistry.Update pfx st n v = StandardRegistry.Update st n v
    ∧ StandardRegistry.Get (PrefixedRegistry.Update pfx [] n v) (pfx ++ n) = none
    ∧ StandardRegistry.Get (PrefixedRegistry.Update pfx [] n v) n
        = some (Metric.counter (wrap64 v)) := by
  have hupd : PrefixedRegistry.Update pfx ([] : RegState) n v
      = [(n, Metric.counter (wrap64 v))] := by
    show StandardRegistry.Update ([] : RegState) n v = _
    unfold StandardRegistry.Update StandardRegistry.register
    simp [List.lookup, insertReg, replaceReg_cons_self, replaceReg_nil, updateMetric]
  refine ⟨rfl, rfl, rfl, rfl, rfl, ?_, ?_⟩
  · have hne := string_append_ne_of_ne_left pfx n hp
    have hbne : (pfx ++ n == n) = false := by simp [hne]
    rw [hupd]
    simp [StandardRegistry.Get, List.lookup, hbne]
  · rw [hupd]
    simp [StandardRegistry.Get, List.lookup]

/-- Witness for C4 (amended) at a concrete prefix, name and state. -/
theorem prefixed_ops_delegation_witness :
    ("p." ≠ "")
    ∧ (PrefixedRegistry.Get "p." [("y", Metric.gauge 1)] "x"
        = StandardRegistry.Get [("y", Metric.gauge 1)] ("p." ++ "x")
      ∧ PrefixedRegistry.Register "p." [("y", Metric.gauge 1)] "x" (Metric.counter 0)
          = StandardRegistry.Register [("y", Metric.gauge 1)] ("p." ++ "x") (Metric.counter 0)
      ∧ PrefixedRegistry.GetOrRegister "p." [("y", Metric.gauge 1)] "x"
            (MetricOrCtor.metric (Metric.counter 0))
          = StandardRegistry.GetOrRegister [("y", Metric.gauge 1)] ("p." ++ "x")
            (MetricOrCtor.metric (Metric.counter 0))
      ∧ PrefixedRegistry.Unregister "p." [("y", Metric.gauge 1)] "x"
          = StandardRegistry.Unregister [("y", Metric.gauge 1)] ("p." ++ "x")
      ∧ PrefixedRegistry.Update "p." [("y", Metric.gauge 1)] "x" 5
          = StandardRegistry.Update [("y", Metric.gauge 1)] "x" 5
      ∧ StandardRegistry.Get (PrefixedRegistry.Update "p." [] "x" 5) ("p." ++ "x") = none
      ∧ StandardRegistry.Get (PrefixedRegistry.Update "p." [] "x" 5) "x"
          = some (Metric.counter (wrap64 5))) :=
  ⟨by decide, prefixed_ops_delegation "p." "x" 5 [("y", Metric.gauge 1)]
    (Metric.counter 0) (MetricOrCtor.metric (Metric.counter 0)) (by decide)⟩

theorem lookup_isSome_of_mem_keys (st : RegState) (k : String)
    (hk : k ∈ st.map Prod.fst) : (st.lookup k).isSome = true := by
  induction st with
  | nil => simp at hk
  | cons p rest ih =>
    by_cases he : k = p.1
    · have : (k == p.1) = true := by simp [he]
      simp [List.lookup, this]
    · have hbne : (k == p.1) = false := by simp [he]
      simp only [List.map_cons, List.mem_cons] at hk
      rcases hk with hk | hk
      · exact absurd hk he
      · simp [List.lookup, hbne, ih hk]

theorem filterMap_lookup_fst (st : RegState) :
    ∀ ks : List String, (∀ k ∈ ks, (st.lookup k).isSome = true) →
      (ks.filterMap (fun k => (st.lookup k).map (fun m => (k, m)))).map Prod.fst = ks := by
  intro ks
  induction ks with
  | nil => intro _; simp
  | cons k ks ih =>
    intro h
    have hk := h k (by simp)
    cases hkk : st.lookup k with
    | none => rw [hkk] at hk; simp at hk
    | some m =>
      rw [List.filterMap_cons]
      simp only [hkk, Option.map_some']
      rw [List.map_cons, ih (fun x hx => h x (by simp [hx]))]

/-- C7: `Each` visits each registered name exactly once, in strictly
ascending lexicographic order, covering exactly the set of names present in
the registry at call time, and passes the metric stored under each name
(registry key uniqueness — a Go map invariant — is the hypothesis). -/
theorem each_sorted_complete (st : RegState) (h : (st.map Prod.fst).Nodup) :
    ((StandardRegistry.Each st).map Prod.fst).Sorted (· < ·)
    ∧ List.Perm ((StandardRegistry.Each st).map Prod.fst) (st.map Prod.fst)
    ∧ ∀ p ∈ StandardRegistry.Each st, st.lookup p.1 = some p.2 := by
  have hperm : List.Perm (sortedKeys st) (st.map Prod.fst) := List.perm_insertionSort _ _
  have hsome : ∀ k ∈ sortedKeys st, (st.lookup k).isSome = true := fun k hk =>
    lookup_isSome_of_mem_keys st k (hperm.subset hk)
  have hmapfst : (StandardRegistry.Each st).map Prod.fst = sortedKeys st :=
    filterMap_lookup_fst st (sortedKeys st) hsome
  refine ⟨?_, ?_, ?_⟩
  · rw [hmapfst]
    exact List.Sorted.lt_of_le (List.sorted_insertionSort _ _) (hperm.nodup_iff.mpr h)
  · rw [hmapfst]
    exact hperm
  · intro p hp
    rcases List.mem_filterMap.mp hp with ⟨k, _, he⟩
    cases hl : st.lookup k with
    | none => rw [hl] at he; simp at he
    | some m =>
      rw [hl] at he
      simp only [Option.map_some', Option.some.injEq] at he
      rw [← he]
      exact hl

/-- Witness for C7 at a concrete two-entry registry. -/
theorem each_sorted_complete_witness :
    (([("b", Metric.counter 1), ("a", Metric.gauge 2)] : RegState).map Prod.fst).Nodup
    ∧ (((StandardRegistry.Each [("b", Metric.counter 1), ("a", Metric.gauge 2)]).map
          Prod.fst).Sorted (· < ·)
      ∧ List.Perm
          ((StandardRegistry.Each [("b", Metric.counter 1), ("a", Metric.gauge 2)]).map
            Prod.fst)
          (([("b", Metric.counter 1), ("a", Metric.gauge 2)] : RegState).map Prod.fst)
      ∧ ∀ p ∈ StandardRegistry.Each [("b", Metric.counter 1), ("a", Metric.gauge 2)],
          ([("b", Metric.counter 1), ("a", Metric.gauge 2)] : RegState).lookup p.1
            = some p.2) :=
  ⟨by decide, each_sorted_complete [("b", Metric.counter 1), ("a", Metric.gauge 2)]
    (by decide)⟩

/-! ## Exporter lemmas -/

theorem string_append_right_ne (n : String) {a b : String} (h : a ≠ b) :
    n ++ a ≠ n ++ b := by
  intro he
  apply h
  have hd := congrArg String.data he
  rw [String.data_append, String.data_append] at hd
  have hcancel := List.append_cancel_left hd
  cases a with
  | mk da =>
    cases b with
    | mk db => exact congrArg String.mk hcancel

/-- C5 counterexample: a timer snapshot whose mean is 9 but whose quantile
function is constantly 7 is exported with `<name>_avg = 7 / 10^9`, not the
scaled mean `9 / 10^9` — the code assigns `ps[0]` (the 0.5 quantile) to the
`_avg` field, not `t.Mean()`. -/
theorem timer_avg_counterexample :
    mapGet (buildTimerRecord "h" "i" "g" "x" ⟨9, fun _ => 7⟩) ("x" ++ "_avg")
        ≠ some (ExportValue.rat ((⟨9, fun _ => 7⟩ : TimerSnapshot).mean / timeSecond))
    ∧ (⟨9, fun _ => 7⟩ : TimerSnapshot).mean = 9 := by
  have h80 : "x" ++ "_80" ≠ "x" ++ "_avg" := string_append_right_ne "x" (by decide)
  have h90 : "x" ++ "_90" ≠ "x" ++ "_avg" := string_append_right_ne "x" (by decide)
  have h95 : "x" ++ "_95" ≠ "x" ++ "_avg" := string_append_right_ne "x" (by decide)
  have h99 : "x" ++ "_99" ≠ "x" ++ "_avg" := string_append_right_ne "x" (by decide)
  have hv : mapGet (buildTimerRecord "h" "i" "g" "x" ⟨9, fun _ => 7⟩) ("x" ++ "_avg")
      = some (ExportValue.rat ((7 : ℚ) / timeSecond)) := by
    simp [buildTimerRecord, timerExportFields, TimerSnapshot.Percentiles, mapGet, List.foldl,
      h80, h90, h95, h99]
  refine ⟨?_, rfl⟩
  rw [hv]
  simp only [ne_eq, Option.some.injEq, ExportValue.rat.injEq]
  norm_num [timeSecond]

/-- C5 (amended): for every timer exported in an export cycle, the record
holds the fields `<name>_avg`, `<name>_80`, `<name>_90`, `<name>_95`,
`<name>_99`; `_80` through `_99` hold the corresponding percentiles and
`_avg` holds the *median* (the 0.5 quantile) — not the mean — all scaled
from nanoseconds to seconds. -/
theorem timer_export_record (host idn game name : String) (t : TimerSnapshot) :
    mapGet (buildTimerRecord host idn game name t) (name ++ "_avg")
        = some (ExportValue.rat (t.quantile (1/2) / timeSecond))
    ∧ mapGet (buildTimerRecord host idn game name t) (name ++ "_80")
        = some (ExportValue.rat (t.quantile (8/10) / timeSecond))
    ∧ mapGet (buildTimerRecord host idn game name t) (name ++ "_90")
        = some (ExportValue.rat (t.quantile (9/10) / timeSecond))
    ∧ mapGet (buildTimerRecord host idn game name t) (name ++ "_95")
        = some (ExportValue.rat (t.quantile (95/100) / timeSecond))
    ∧ mapGet (buildTimerRecord host idn game name t) (name ++ "_99")
        = some (ExportValue.rat (t.quantile (99/100) / timeSecond)) := by
  have h80avg : name ++ "_80" ≠ name ++ "_avg" := string_append_right_ne name (by decide)
  have h90avg : name ++ "_90" ≠ name ++ "_avg" := string_append_right_ne name (by decide)
  have h95avg : name ++ "_95" ≠ name ++ "_avg" := string_append_right_ne name (by decide)
  have h99avg : name ++ "_99" ≠ name ++ "_avg" := string_append_right_ne name (by decide)
  have h9080 : name ++ "_90" ≠ name ++ "_80" := string_append_right_ne name (by decide)
  have h9580 : name ++ "_95" ≠ name ++ "_80" := string_append_right_ne name (by decide)
  have h9980 : name ++ "_99" ≠ name ++ "_80" := string_append_right_ne name (by decide)
  have h9590 : name ++ "_95" ≠ name ++ "_90" := string_append_right_ne name (by decide)
  have h9990 : name ++ "_99" ≠ name ++ "_90" := string_append_right_ne name (by decide)
  have h9995 : name ++ "_99" ≠ name ++ "_95" := string_append_right_ne name (by decide)
  refine ⟨?_, ?_, ?_, ?_, ?_⟩ <;>
    simp [buildTimerRecord, timerExportFields, TimerSnapshot.Percentiles, mapGet, List.foldl,
      h80avg, h90avg, h95avg, h99avg, h9080, h9580, h9980, h9590, h9990, h9995]

theorem objList_foldl_append (b : Nat) (so : Record) (rs : List Record) :
    ∀ acc : List Record,
      ((rs.foldl OptronObjBuilder.append ⟨true, b, so, acc⟩).objList) = acc ++ rs := by
  induction rs with
  | nil => intro acc; simp [List.foldl]
  | cons r rs ih =>
    intro acc
    rw [List.foldl_cons]
    have hstep : OptronObjBuilder.append ⟨true, b, so, acc⟩ r = ⟨true, b, so, acc ++ [r]⟩ := by
      simp [OptronObjBuilder.append]
    rw [hstep, ih (acc ++ [r])]
    simp

theorem chunkGo_flatten (b : Nat) (hb : 1 ≤ b) (l : List Record) :
    (chunkGo b l).flatten = l := by
  have H : ∀ (n : Nat) (l : List Record), l.length ≤ n → (chunkGo b l).flatten = l := by
    intro n
    induction n with
    | zero =>
      intro l hl
      have hnil : l = [] := List.eq_nil_of_length_eq_zero (Nat.le_zero.mp hl)
      subst hnil
      simp [chunkGo]
    | succ n ih =>
      intro l hl
      cases l with
      | nil => simp [chunkGo]
      | cons a t =>
        simp only [chunkGo, List.flatten_cons]
        rw [ih (t.drop (b - 1))
          (by simp only [List.length_cons] at hl; simp only [List.length_drop]; omega)]
        cases b with
        | zero => omega
        | succ b' =>
          simp [List.take_succ_cons, Nat.succ_sub_one, List.take_append_drop]
  exact H l.length l le_rfl

theorem chunkGo_sizes (b : Nat) (hb : 1 ≤ b) (l : List Record) :
    (chunkGo b l).map List.length
      = List.replicate (l.length / b) b
        ++ (if l.length % b = 0 then [] else [l.length % b]) := by
  have H : ∀ (n : Nat) (l : List Record), l.length ≤ n →
      (chunkGo b l).map List.length
        = List.replicate (l.length / b) b
          ++ (if l.length % b = 0 then [] else [l.length % b]) := by
    intro n
    induction n with
    | zero =>
      intro l hl
      have hnil : l = [] := List.eq_nil_of_length_eq_zero (Nat.le_zero.mp hl)
      subst hnil
      simp [chunkGo]
    | succ n ih =>
      intro l hl
      cases l with
      | nil => simp [chunkGo]
      | cons a t =>
        simp only [chunkGo, List.map_cons, List.length_cons]
        rw [ih (t.drop (b - 1))
          (by simp only [List.length_cons] at hl; simp only [List.length_drop]; omega)]
        by_cases hc : t.length + 1 ≤ b
        · have hdrop : t.drop (b - 1) = [] := List.drop_eq_nil_of_le (by omega)
          have htake : ((a :: t).take b).length = t.length + 1 := by
            simp only [List.length_take, List.length_cons]
            omega
          rw [hdrop, htake]
          simp only [List.length_nil, Nat.zero_div, List.replicate_zero, Nat.zero_mod,
            eq_self_iff_true, ite_true, List.nil_append, List.append_nil]
          by_cases heq : t.length + 1 = b
          · rw [heq]
            simp [Nat.div_self (by omega : 0 < b), Nat.mod_self]
          · have hlt : t.length + 1 < b := by omega
            simp [Nat.div_eq_of_lt hlt, Nat.mod_eq_of_lt hlt]
        · have hble : b ≤ t.length := by omega
          have htake : ((a :: t).take b).length = b := by
            simp only [List.length_take, List.length_cons]
            omega
          have hdlen : (t.drop (b - 1)).length = t.length + 1 - b := by
            simp only [List.length_drop]
            omega
          rw [htake, hdlen]
          have hm : t.length + 1 = (t.length + 1 - b) + b := by omega
          rw [hm, Nat.add_div_right _ (by omega : 0 < b), Nat.add_mod_right,
            List.replicate_succ]
          simp
  exact H l.length l le_rfl

theorem chunkGo_count (b : Nat) (hb : 1 ≤ b) (l : List Record) :
    (chunkGo b l).length = (l.length + b - 1) / b := by
  have hlen := congrArg List.length (chunkGo_sizes b hb l)
  rw [List.length_map, List.length_append, List.length_replicate] at hlen
  rw [hlen]
  have hqr := Nat.div_add_mod l.length b
  have hrlt : l.length % b < b := Nat.mod_lt _ (by omega)
  by_cases hr : l.length % b = 0
  · have h1 : l.length + b - 1 = b * (l.length / b) + (b - 1) := by omega
    rw [h1, Nat.mul_add_div (show 0 < b by omega),
      Nat.div_eq_of_lt (show b - 1 < b by omega)]
    simp [hr]
  · have hdist : b * (l.length / b + 1) = b * (l.length / b) + b := by ring
    have h1 : l.length + b - 1 = b * (l.length / b + 1) + (l.length % b - 1) := by omega
    rw [h1, Nat.mul_add_div (show 0 < b by omega),
      Nat.div_eq_of_lt (show l.length % b - 1 < b by omega)]
    simp [hr]

/-- C8: with bulk support enabled and batch size `b ≥ 1` (validated at
`init`), `flush` chunks the `n` pending records, in order, into
`ceil(n / b)` payloads: every payload holds exactly `b` records except the
last, which holds `n mod b` (or `b` when `b` divides `n`); both buffers are
cleared, and `append` had accumulated the records in arrival order. -/
theorem flush_bulk_batches (b : Nat) (hb : 1 ≤ b) (l : List Record) (so : Record) :
    (OptronObjBuilder.flush ⟨true, b, so, l⟩).1 = (chunkGo b l).map Payload.batch
    ∧ (chunkGo b l).flatten = l
    ∧ (chunkGo b l).map List.length
        = List.replicate (l.length / b) b
          ++ (if l.length % b = 0 then [] else [l.length % b])
    ∧ (chunkGo b l).length = (l.length + b - 1) / b
    ∧ (OptronObjBuilder.flush ⟨true, b, so, l⟩).2.objList = []
    ∧ (OptronObjBuilder.flush ⟨true, b, so, l⟩).2.standaloneObj = []
    ∧ ∀ rs : List Record,
        ((rs.foldl OptronObjBuilder.append ⟨true, b, so, []⟩).objList) = rs := by
  refine ⟨rfl, chunkGo_flatten b hb l, chunkGo_sizes b hb l, chunkGo_count b hb l, rfl, rfl, ?_⟩
  intro rs
  rw [objList_foldl_append b so rs []]
  simp

/-- Witness for C8: three pending records with batch size 2 flush into two
payloads of sizes 2 and 1 (the spec's own scenario). -/
theorem flush_bulk_batches_witness :
    (1 ≤ 2)
    ∧ ((OptronObjBuilder.flush ⟨true, 2, [], [[], [], []]⟩).1
          = (chunkGo 2 [[], [], []]).map Payload.batch
      ∧ (chunkGo 2 ([[], [], []] : List Record)).flatten = [[], [], []]
      ∧ (chunkGo 2 ([[], [], []] : List Record)).map List.length
          = List.replicate (([[], [], []] : List Record).length / 2) 2
            ++ (if ([[], [], []] : List Record).length % 2 = 0 then []
                else [([[], [], []] : List Record).length % 2])
      ∧ (chunkGo 2 ([[], [], []] : List Record)).length
          = (([[], [], []] : List Record).length + 2 - 1) / 2
      ∧ (OptronObjBuilder.flush ⟨true, 2, [], [[], [], []]⟩).2.objList = []
      ∧ (OptronObjBuilder.flush ⟨true, 2, [], [[], [], []]⟩).2.standaloneObj = []
      ∧ ∀ rs : List Record,
          ((rs.foldl OptronObjBuilder.append ⟨true, 2, [], []⟩).objList) = rs)
    ∧ (chunkGo 2 ([[], [], []] : List Record)).map List.length = [2, 1] := by
  have h := flush_bulk_batches 2 (by decide) [[], [], []] []
  exact ⟨by decide, h, h.2.2.1.trans (by decide)⟩

end GoMetrics
